import Mathlib

/-!
Verification of the Outreach-Tracker core (`src/streak_app.py`).

The application keeps a flat table of day records (ISO date string and an
integer outreach count), persisted as a two-column CSV, and computes derived
metrics: a weekly sum over the last seven stored rows, a trailing streak of
days with at least 10 outreaches, and a Monday-first monthly calendar grid
marking goal-met days with a tick.  This file gives a shallow embedding of
that logic and proves the specified properties about it.
-/

namespace StreakApp

/-- A single row of the table: an ISO-8601 date string and an integer
outreach count, mirroring the two CSV columns `date` and `count`. -/
structure DayRecord where
  date : String
  count : Int
deriving DecidableEq, Repr

/-- The in-memory table (`st.session_state["data"]`): an insertion-ordered
sequence of day records. -/
abbrev Table := List DayRecord

/-- The streak loop of `main` (`for _, day_row in df.iloc[::-1].iterrows()`):
given the rows already reversed (most recently appended first), add one per
row with `count >= 10` and stop at the first row below the threshold. -/
def streak_loop : Table → Nat
  | [] => 0
  | r :: rs => if 10 ≤ r.count then streak_loop rs + 1 else 0

/-- The `consecutive_streak` value computed in `main`: run the streak loop over the
rows in reverse stored order. -/
def current_streak (df : Table) : Nat :=
  streak_loop df.reverse

/-- Embedding of `pandas.DataFrame.tail n`: the last `min n (length df)` rows, in stored
order. -/
def pd_tail (n : Nat) (df : Table) : Table :=
  df.drop (df.length - n)

/-- The weekly sum `compute_weekly_count`: `df.tail(7)` summed over `count`. -/
def compute_weekly_count (df : Table) : Int :=
  ((pd_tail 7 df).map (fun r => r.count)).sum

/-- The ensure-today step of `init_data`: if no row has `date == today`,
append a fresh row `{date: today, count: 0}` at the end. -/
def ensure_today (df : Table) (today : String) : Table :=
  if df.any (fun r => r.date == today) then df
  else df ++ [⟨today, 0⟩]

/-- Outcome of a mutation callback: the updated table, whether `save_data`
was invoked, and whether the "Count is already 0" warning was shown. -/
structure MutResult where
  table : Table
  saved : Bool
  warned : Bool
deriving DecidableEq, Repr

/-- The `add_outreach` callback: increment `count` at `row_idx` and save.  `df.at` on a
missing label raises, which the embedding reflects as `none`. -/
def add_outreach (df : Table) (row_idx : Nat) : Option MutResult :=
  match df[row_idx]? with
  | none => none
  | some r => some ⟨df.set row_idx { r with count := r.count + 1 }, true, false⟩

/-- The `remove_outreach` callback: if `count` at `row_idx` is positive, decrement it and
save; otherwise leave the table alone and warn. -/
def remove_outreach (df : Table) (row_idx : Nat) : Option MutResult :=
  match df[row_idx]? with
  | none => none
  | some r =>
    if 0 < r.count then some ⟨df.set row_idx { r with count := r.count - 1 }, true, false⟩
    else some ⟨df, false, true⟩

/-- The table invariant of the data model: every count is non-negative and
no two rows share a date. -/
def table_inv (df : Table) : Prop :=
  (∀ r ∈ df, 0 ≤ r.count) ∧ (df.map (fun r => r.date)).Nodup

/-! ### Helper lemmas -/

theorem streak_loop_eq_takeWhile (l : Table) :
    streak_loop l = (l.takeWhile (fun r => decide (10 ≤ r.count))).length := by
  induction l with
  | nil => rfl
  | cons r rs ih =>
    by_cases h : 10 ≤ r.count
    · simp [streak_loop, List.takeWhile_cons, h, ih, Nat.add_comm]
    · simp [streak_loop, List.takeWhile_cons, h]

/-! ### C1 -/

/-- C1: `current_streak` scans rows in reverse stored order and returns the
number of consecutive rows with `count >= 10`, stopping at the first row
below the threshold; in particular it maps `[]` to 0, `[{count:9}]` to 0,
`[{count:10},{count:10}]` to 2, and `[{count:10},{count:5},{count:10}]`
to 1. -/
theorem current_streak_spec :
    (∀ df : Table, current_streak df =
      (df.reverse.takeWhile (fun r => decide (10 ≤ r.count))).length) ∧
    current_streak [] = 0 ∧
    current_streak [⟨"2024-06-01", 9⟩] = 0 ∧
    current_streak [⟨"2024-06-01", 10⟩, ⟨"2024-06-02", 10⟩] = 2 ∧
    current_streak [⟨"2024-06-01", 10⟩, ⟨"2024-06-02", 5⟩, ⟨"2024-06-03", 10⟩] = 1 := by
  refine ⟨fun df => streak_loop_eq_takeWhile df.reverse, ?_, ?_, ?_, ?_⟩ <;> decide

/-! ### C2 -/

/-- C2: `compute_weekly_count` sums the `count` field over the last
`min 7 (length df)` rows of the table in stored order: the window has that
length, and its `k`-th entry is the table row at position
`length df - min 7 (length df) + k`. -/
theorem compute_weekly_count_spec (df : Table) :
    compute_weekly_count df =
      ((df.drop (df.length - min 7 df.length)).map (fun r => r.count)).sum ∧
    (df.drop (df.length - min 7 df.length)).length = min 7 df.length ∧
    ∀ k : Nat, (df.drop (df.length - min 7 df.length))[k]? =
      df[df.length - min 7 df.length + k]? := by
  have harg : df.length - 7 = df.length - min 7 df.length := by omega
  refine ⟨?_, ?_, ?_⟩
  · unfold compute_weekly_count pd_tail
    rw [harg]
  · rw [List.length_drop]; omega
  · intro k
    rw [List.getElem?_drop]

/-! ### C3 -/

/-- C3: when no row of `df` carries date `d`, `ensure_today df d` appends
exactly the row `{date := d, count := 0}` (preserving all existing rows),
and a second call with the same `d` is a no-op. -/
theorem ensure_today_spec (df : Table) (d : String)
    (h : ∀ r ∈ df, r.date ≠ d) :
    ensure_today df d = df ++ [⟨d, 0⟩] ∧
    ensure_today (ensure_today df d) d = ensure_today df d := by
  have hany : df.any (fun r => r.date == d) = false := by
    simp only [List.any_eq_false]
    intro r hr
    simpa using h r hr
  have h1 : ensure_today df d = df ++ [⟨d, 0⟩] := by
    simp [ensure_today, hany]
  refine ⟨h1, ?_⟩
  rw [h1]
  simp [ensure_today]

/-- Witness for C3 at a concrete table and date. -/
theorem ensure_today_spec_witness :
    ensure_today [⟨"2024-06-01", 3⟩] "2024-06-02" =
      [⟨"2024-06-01", 3⟩, ⟨"2024-06-02", 0⟩] ∧
    ensure_today (ensure_today [⟨"2024-06-01", 3⟩] "2024-06-02") "2024-06-02" =
      ensure_today [⟨"2024-06-01", 3⟩] "2024-06-02" :=
  ensure_today_spec [⟨"2024-06-01", 3⟩] "2024-06-02" (by decide)

/-! ### C4 -/

/-- C4: decrementing a row whose count is 0 is a no-op — the table is
unchanged, no save happens, and the "nothing to remove" warning is shown;
decrementing a row with positive count lowers it by one (leaving every
other row and the date untouched) and triggers a save. -/
theorem remove_outreach_spec (df : Table) (i : Nat) (r : DayRecord)
    (h : df[i]? = some r) :
    (r.count = 0 → remove_outreach df i = some ⟨df, false, true⟩) ∧
    (0 < r.count → ∃ t, remove_outreach df i = some ⟨t, true, false⟩ ∧
      t[i]? = some ⟨r.date, r.count - 1⟩ ∧
      ∀ j, j ≠ i → t[j]? = df[j]?) := by
  have hi : i < df.length := (List.getElem?_eq_some_iff.mp h).1
  constructor
  · intro h0
    simp [remove_outreach, h, h0]
  · intro hpos
    refine ⟨df.set i { r with count := r.count - 1 }, ?_, ?_, ?_⟩
    · simp [remove_outreach, h, hpos]
    · rw [List.getElem?_set_self (by simpa using hi)]
    · intro j hj
      exact List.getElem?_set_ne (fun hij => hj hij.symm)

/-- Witness for C4 at a concrete table and index. -/
theorem remove_outreach_spec_witness :
    ((0 : Int) = 0 → remove_outreach [⟨"2024-06-01", 0⟩] 0 =
      some ⟨[⟨"2024-06-01", 0⟩], false, true⟩) ∧
    ((0 : Int) < 0 → ∃ t, remove_outreach [⟨"2024-06-01", 0⟩] 0 = some ⟨t, true, false⟩ ∧
      t[0]? = some ⟨"2024-06-01", (0 : Int) - 1⟩ ∧
      ∀ j, j ≠ 0 → t[j]? = ([⟨"2024-06-01", 0⟩] : Table)[j]?) :=
  remove_outreach_spec [⟨"2024-06-01", 0⟩] 0 ⟨"2024-06-01", 0⟩ (by decide)

/-! ### C7 -/

theorem set_self_of_getElem? {α : Type} (l : List α) (i : Nat) (a : α)
    (h : l[i]? = some a) : l.set i a = l := by
  induction l generalizing i with
  | nil => simp at h
  | cons x xs ih =>
    cases i with
    | zero => simp at h; simp [h]
    | succ n => simp at h; simp [List.set, ih n h]

/-- C7: `ensure_today`, `add_outreach` and `remove_outreach` all preserve
the table invariant (non-negative counts, at most one row per date), and
after `ensure_today df d` a row with date `d` exists. -/
theorem table_inv_preserved (df : Table) (d : String) (i : Nat)
    (h : table_inv df) :
    table_inv (ensure_today df d) ∧
    (∃ r ∈ ensure_today df d, r.date = d) ∧
    (∀ res, add_outreach df i = some res → table_inv res.table) ∧
    (∀ res, remove_outreach df i = some res → table_inv res.table) := by
  obtain ⟨hcnt, hnodup⟩ := h
  refine ⟨?_, ?_, ?_, ?_⟩
  · unfold ensure_today
    by_cases hany : df.any (fun r => r.date == d)
    · rw [if_pos hany]
      exact ⟨hcnt, hnodup⟩
    · rw [if_neg hany]
      have hnd : ∀ r ∈ df, ¬(r.date = d) := by
        intro r hr hrd
        exact hany (List.any_eq_true.mpr ⟨r, hr, by simp [hrd]⟩)
      constructor
      · intro r hr
        rcases List.mem_append.mp hr with hr | hr
        · exact hcnt r hr
        · simp at hr; simp [hr]
      · rw [List.map_append]
        refine List.Nodup.append hnodup (by simp) ?_
        intro x hx hx'
        simp at hx'
        rcases List.mem_map.mp hx with ⟨r, hr, hrd⟩
        exact hnd r hr (hrd.trans hx')
  · unfold ensure_today
    by_cases hany : df.any (fun r => r.date == d)
    · rw [if_pos hany]
      rcases List.any_eq_true.mp hany with ⟨r, hr, hrd⟩
      exact ⟨r, hr, by simpa using hrd⟩
    · rw [if_neg hany]
      exact ⟨⟨d, 0⟩, by simp, rfl⟩
  · intro res hres
    cases hg : df[i]? with
    | none => simp [add_outreach, hg] at hres
    | some r =>
      simp only [add_outreach, hg, Option.some.injEq] at hres
      subst hres
      constructor
      · intro x hx
        rcases List.mem_or_eq_of_mem_set hx with hx | hx
        · exact hcnt x hx
        · subst hx
          have := hcnt r (List.getElem?_mem hg)
          simp; omega
      · simp only [List.map_set]
        rw [set_self_of_getElem?]
        · exact hnodup
        · simp [hg]
  · intro res hres
    cases hg : df[i]? with
    | none => simp [remove_outreach, hg] at hres
    | some r =>
      by_cases hpos : 0 < r.count
      · simp only [remove_outreach, hg, hpos, if_true, Option.some.injEq] at hres
        subst hres
        constructor
        · intro x hx
          rcases List.mem_or_eq_of_mem_set hx with hx | hx
          · exact hcnt x hx
          · subst hx; simp; omega
        · simp only [List.map_set]
          rw [set_self_of_getElem?]
          · exact hnodup
          · simp [hg]
      · simp only [remove_outreach, hg, hpos, if_false, Option.some.injEq] at hres
        subst hres
        exact ⟨hcnt, hnodup⟩

/-- Witness for C7 at a concrete table, date and index. -/
theorem table_inv_preserved_witness :
    table_inv (ensure_today [⟨"2024-06-01", 2⟩] "2024-06-02") ∧
    (∃ r ∈ ensure_today [⟨"2024-06-01", 2⟩] "2024-06-02", r.date = "2024-06-02") ∧
    (∀ res, add_outreach [⟨"2024-06-01", 2⟩] 0 = some res → table_inv res.table) ∧
    (∀ res, remove_outreach [⟨"2024-06-01", 2⟩] 0 = some res → table_inv res.table) :=
  table_inv_preserved [⟨"2024-06-01", 2⟩] "2024-06-02" 0
    ⟨by decide, by decide⟩

/-! ### C10 -/

/-- C10: `add_outreach` (always) and `remove_outreach` (when the count is
positive) change only the `count` field of the addressed row: the row keeps
its date, every other position of the table is unchanged, and the length is
preserved. -/
theorem mutation_frame (df : Table) (i : Nat) (r : DayRecord)
    (h : df[i]? = some r) :
    (∀ res, add_outreach df i = some res →
      res.saved = true ∧
      res.table.length = df.length ∧
      res.table[i]? = some ⟨r.date, r.count + 1⟩ ∧
      ∀ j, j ≠ i → res.table[j]? = df[j]?) ∧
    (0 < r.count → ∀ res, remove_outreach df i = some res →
      res.saved = true ∧
      res.table.length = df.length ∧
      res.table[i]? = some ⟨r.date, r.count - 1⟩ ∧
      ∀ j, j ≠ i → res.table[j]? = df[j]?) := by
  have hi : i < df.length := (List.getElem?_eq_some_iff.mp h).1
  constructor
  · intro res hres
    simp only [add_outreach, h, Option.some.injEq] at hres
    subst hres
    refine ⟨rfl, List.length_set .., ?_, ?_⟩
    · rw [List.getElem?_set_self (by simpa using hi)]
    · intro j hj
      exact List.getElem?_set_ne (fun hij => hj hij.symm)
  · intro hpos res hres
    simp only [remove_outreach, h, hpos, if_true, Option.some.injEq] at hres
    subst hres
    refine ⟨rfl, List.length_set .., ?_, ?_⟩
    · rw [List.getElem?_set_self (by simpa using hi)]
    · intro j hj
      exact List.getElem?_set_ne (fun hij => hj hij.symm)

/-- Witness for C10 at a concrete table and index. -/
theorem mutation_frame_witness :
    (∀ res, add_outreach [⟨"2024-06-01", 2⟩] 0 = some res →
      res.saved = true ∧
      res.table.length = ([⟨"2024-06-01", 2⟩] : Table).length ∧
      res.table[0]? = some ⟨"2024-06-01", (2 : Int) + 1⟩ ∧
      ∀ j, j ≠ 0 → res.table[j]? = ([⟨"2024-06-01", 2⟩] : Table)[j]?) ∧
    ((0 : Int) < 2 → ∀ res, remove_outreach [⟨"2024-06-01", 2⟩] 0 = some res →
      res.saved = true ∧
      res.table.length = ([⟨"2024-06-01", 2⟩] : Table).length ∧
      res.table[0]? = some ⟨"2024-06-01", (2 : Int) - 1⟩ ∧
      ∀ j, j ≠ 0 → res.table[j]? = ([⟨"2024-06-01", 2⟩] : Table)[j]?) :=
  mutation_frame [⟨"2024-06-01", 2⟩] 0 ⟨"2024-06-01", 2⟩ (by decide)

/-! ### Persistence layer

`load_data` / `save_data` call `pd.read_csv` / `DataFrame.to_csv` on the
two-column table, so the persisted byte stream is the header line
`date,count` followed by one `date,count` line per row.  The CSV encoding
of that format is embedded below at the character level; the decimal
printer/reader stands in for the integer formatting used by pandas. -/

/-- The decimal digit character for `n < 10` (codepoint `48 + n`). -/
def digit_char (n : Nat) : Char := Char.ofNat (48 + n)

/-- Decimal representation of a natural number, most significant digit
first, as printed in the `count` CSV column. -/
def nat_chars (n : Nat) : List Char :=
  if h : n < 10 then [digit_char n]
  else nat_chars (n / 10) ++ [digit_char (n % 10)]
decreasing_by exact Nat.div_lt_self (by omega) (by omega)

/-- Decimal representation of an integer (with a leading minus sign when
negative). -/
def int_chars (n : Int) : List Char :=
  if n < 0 then '-' :: nat_chars n.natAbs else nat_chars n.toNat

/-- The value of a decimal digit character, or `none` for other
characters. -/
def digit_val (c : Char) : Option Nat :=
  if 48 ≤ c.toNat ∧ c.toNat ≤ 57 then some (c.toNat - 48) else none

/-- Read decimal digits, folding them onto an accumulator; fails at the
first non-digit. -/
def parse_nat_aux : List Char → Nat → Option Nat
  | [], acc => some acc
  | c :: cs, acc =>
    match digit_val c with
    | some d => parse_nat_aux cs (acc * 10 + d)
    | none => none

/-- Read a non-empty all-digit character list as a natural number. -/
def parse_nat : List Char → Option Nat
  | [] => none
  | cs => parse_nat_aux cs 0

/-- Read an optionally minus-signed decimal integer. -/
def parse_int (cs : List Char) : Option Int :=
  match cs with
  | [] => none
  | c :: rest =>
    if c = '-' then (parse_nat rest).map (fun m => -(m : Int))
    else (parse_nat (c :: rest)).map (fun m => (m : Int))

/-- Split a character list at every occurrence of `sep` (CSV field and
line splitting). -/
def split_on_char (sep : Char) : List Char → List (List Char)
  | [] => [[]]
  | c :: cs =>
    if c = sep then [] :: split_on_char sep cs
    else
      match split_on_char sep cs with
      | [] => [[c]]
      | f :: rest => (c :: f) :: rest

/-- The CSV header line written by `to_csv`: `date,count`. -/
def csv_header : List Char := "date,count".toList

/-- One CSV data line (without the terminating newline) for a row. -/
def record_line (r : DayRecord) : List Char :=
  r.date.toList ++ ',' :: int_chars r.count

/-- Embedding of `save_data` (`df.to_csv(DATA_FILE, index=False)`): header line then
one newline-terminated line per row. -/
def save_data (df : Table) : List Char :=
  csv_header ++ '\n' :: (df.map (fun r => record_line r ++ ['\n'])).join

/-- Read one CSV data line back into a row; the line must have exactly
the two fields `date` and `count` with an integer `count`. -/
def parse_row (line : List Char) : Option DayRecord :=
  match split_on_char ',' line with
  | [d, c] => (parse_int c).map (fun n => ⟨⟨d⟩, n⟩)
  | _ => none

/-- Embedding of `pd.read_csv` on the two-column format: check the header line, skip
blank lines, parse each remaining line as a row; malformed input is an
uncaught parse error (`none`). -/
def parse_csv (s : List Char) : Option Table :=
  match split_on_char '\n' s with
  | [] => none
  | header :: rest =>
    if header = csv_header then
      (rest.filter (fun l => !l.isEmpty)).mapM parse_row
    else none

/-- Embedding of `load_data`: a missing file (`none`) or an empty file is caught
(`FileNotFoundError` / `EmptyDataError`) and yields the empty table;
otherwise the CSV contents are parsed. -/
def load_data (file : Option (List Char)) : Option Table :=
  match file with
  | none => some []
  | some s => if s.isEmpty then some [] else parse_csv s

/-- A row as actually produced by the application: a non-empty date
string free of separators (every ISO-8601 date is such), any integer
count. -/
def wellformed_row (r : DayRecord) : Prop :=
  r.date.toList ≠ [] ∧ ',' ∉ r.date.toList ∧ '\n' ∉ r.date.toList

instance (r : DayRecord) : Decidable (wellformed_row r) := by
  unfold wellformed_row
  infer_instance

/-! ### Printer/reader round-trip lemmas -/

theorem digit_val_digit_char (m : Nat) (h : m < 10) :
    digit_val (digit_char m) = some m := by
  interval_cases m <;> decide

theorem digit_char_bound (m : Nat) (h : m < 10) :
    48 ≤ (digit_char m).toNat ∧ (digit_char m).toNat ≤ 57 := by
  interval_cases m <;> decide

theorem nat_chars_ne_nil (n : Nat) : nat_chars n ≠ [] := by
  rw [nat_chars]
  split <;> simp

theorem nat_chars_digits (n : Nat) :
    ∀ c ∈ nat_chars n, 48 ≤ c.toNat ∧ c.toNat ≤ 57 := by
  induction n using Nat.strong_induction_on with
  | _ n ih =>
    rw [nat_chars]
    split
    · next h =>
      intro c hc
      simp at hc
      subst hc
      exact digit_char_bound n h
    · next h =>
      intro c hc
      rcases List.mem_append.mp hc with hc | hc
      · exact ih (n / 10) (Nat.div_lt_self (by omega) (by omega)) c hc
      · simp at hc
        subst hc
        exact digit_char_bound _ (Nat.mod_lt _ (by omega))

theorem int_chars_mem (n : Int) :
    ∀ c ∈ int_chars n, c = '-' ∨ (48 ≤ c.toNat ∧ c.toNat ≤ 57) := by
  intro c hc
  unfold int_chars at hc
  split at hc
  · rcases List.mem_cons.mp hc with hc | hc
    · exact Or.inl hc
    · exact Or.inr (nat_chars_digits _ c hc)
  · exact Or.inr (nat_chars_digits _ c hc)

theorem newline_not_mem_int_chars (n : Int) : '\n' ∉ int_chars n := by
  intro h
  rcases int_chars_mem n _ h with h | h
  · exact absurd h (by decide)
  · exact absurd h (by decide)

theorem comma_not_mem_int_chars (n : Int) : ',' ∉ int_chars n := by
  intro h
  rcases int_chars_mem n _ h with h | h
  · exact absurd h (by decide)
  · exact absurd h (by decide)

theorem parse_nat_aux_append (xs ys : List Char) (acc : Nat) :
    parse_nat_aux (xs ++ ys) acc =
      (parse_nat_aux xs acc).bind (fun a => parse_nat_aux ys a) := by
  induction xs generalizing acc with
  | nil => simp [parse_nat_aux]
  | cons c cs ih =>
    simp only [List.cons_append, parse_nat_aux]
    cases digit_val c with
    | none => simp
    | some d => simp [ih]

theorem parse_nat_aux_nat_chars (n : Nat) :
    ∀ acc, parse_nat_aux (nat_chars n) acc =
      some (acc * 10 ^ (nat_chars n).length + n) := by
  induction n using Nat.strong_induction_on with
  | _ n ih =>
    intro acc
    rw [nat_chars]
    split
    · next h =>
      simp [parse_nat_aux, digit_val_digit_char n h]
    · next h =>
      rw [parse_nat_aux_append, ih (n / 10) (Nat.div_lt_self (by omega) (by omega))]
      have hd : n / 10 * 10 + n % 10 = n := by omega
      show parse_nat_aux [digit_char (n % 10)] _ = _
      simp only [parse_nat_aux,
        digit_val_digit_char (n % 10) (Nat.mod_lt _ (by omega))]
      congr 1
      rw [List.length_append, List.length_singleton, pow_succ]
      calc (acc * 10 ^ (nat_chars (n / 10)).length + n / 10) * 10 + n % 10
          = acc * (10 ^ (nat_chars (n / 10)).length * 10) + (n / 10 * 10 + n % 10) := by
            ring
        _ = acc * (10 ^ (nat_chars (n / 10)).length * 10) + n := by rw [hd]

theorem parse_nat_nat_chars (n : Nat) : parse_nat (nat_chars n) = some n := by
  have h := parse_nat_aux_nat_chars n 0
  cases hnc : nat_chars n with
  | nil => exact absurd hnc (nat_chars_ne_nil n)
  | cons c cs =>
    rw [hnc] at h
    simpa [parse_nat] using h

theorem parse_int_int_chars (n : Int) : parse_int (int_chars n) = some n := by
  unfold int_chars
  split
  · next hneg =>
    have hn := parse_nat_nat_chars n.natAbs
    simp [parse_int, hn, Int.ofNat_natAbs_of_nonpos (le_of_lt hneg)]
  · next hpos =>
    cases hnc : nat_chars n.toNat with
    | nil => exact absurd hnc (nat_chars_ne_nil _)
    | cons c cs =>
      have hc : 48 ≤ c.toNat ∧ c.toNat ≤ 57 :=
        nat_chars_digits _ c (by rw [hnc]; exact List.mem_cons_self c cs)
      have hcne : ¬(c = '-') := by
        intro hh
        rw [hh] at hc
        exact absurd hc (by decide)
      rw [parse_int.eq_def]
      simp only [hcne, if_false]
      rw [← hnc, parse_nat_nat_chars]
      simp
      omega

/-! ### CSV splitting lemmas -/

theorem split_on_char_ne_nil (sep : Char) (cs : List Char) :
    split_on_char sep cs ≠ [] := by
  induction cs with
  | nil => simp [split_on_char]
  | cons c cs ih =>
    by_cases h : c = sep
    · simp [split_on_char, h]
    · simp only [split_on_char, if_neg h]
      cases hs : split_on_char sep cs with
      | nil => simp
      | cons f rest => simp

theorem split_on_char_append (sep : Char) (d rest : List Char) (hd : sep ∉ d) :
    split_on_char sep (d ++ sep :: rest) = d :: split_on_char sep rest := by
  induction d with
  | nil => simp [split_on_char]
  | cons c d ih =>
    have hc : ¬(c = sep) := fun h => hd (by simp [h])
    have hd' : sep ∉ d := fun h => hd (List.mem_cons_of_mem _ h)
    simp only [List.cons_append, split_on_char, if_neg hc]
    simp only [List.append_eq]
    rw [ih hd']

theorem split_on_char_no_sep (sep : Char) (d : List Char) (hd : sep ∉ d) :
    split_on_char sep d = [d] := by
  induction d with
  | nil => rfl
  | cons c d ih =>
    have hc : ¬(c = sep) := fun h => hd (by simp [h])
    have hd' : sep ∉ d := fun h => hd (List.mem_cons_of_mem _ h)
    simp only [split_on_char, if_neg hc, ih hd']

theorem newline_not_mem_record_line (r : DayRecord) (h : '\n' ∉ r.date.toList) :
    '\n' ∉ record_line r := by
  intro hmem
  unfold record_line at hmem
  rcases List.mem_append.mp hmem with hmem | hmem
  · exact h hmem
  · rcases List.mem_cons.mp hmem with hmem | hmem
    · exact absurd hmem (by decide)
    · exact newline_not_mem_int_chars _ hmem

theorem record_line_ne_nil (r : DayRecord) : record_line r ≠ [] := by
  unfold record_line
  cases r.date.toList <;> simp

theorem parse_row_record_line (r : DayRecord) (h : ',' ∉ r.date.toList) :
    parse_row (record_line r) = some r := by
  unfold parse_row record_line
  rw [split_on_char_append ',' _ _ h,
    split_on_char_no_sep ',' _ (comma_not_mem_int_chars _)]
  show (parse_int (int_chars r.count)).map
    (fun n => ({ date := { data := r.date.toList }, count := n } : DayRecord)) = some r
  rw [parse_int_int_chars]
  rfl

theorem split_body (df : Table) (h : ∀ r ∈ df, wellformed_row r) :
    split_on_char '\n' ((df.map (fun r => record_line r ++ ['\n'])).join) =
      df.map record_line ++ [[]] := by
  induction df with
  | nil => rfl
  | cons r rs ih =>
    have hr := h r (List.mem_cons_self r rs)
    have hrs : ∀ x ∈ rs, wellformed_row x := fun x hx => h x (List.mem_cons_of_mem _ hx)
    simp only [List.map_cons, List.join_cons, List.append_assoc, List.singleton_append]
    rw [split_on_char_append '\n' _ _ (newline_not_mem_record_line r hr.2.2), ih hrs]
    rfl

/-! ### C6 -/

theorem mapM_parse_record (df : Table) (h : ∀ r ∈ df, wellformed_row r) :
    (df.map record_line).mapM parse_row = some df := by
  induction df with
  | nil => rfl
  | cons r rs ih =>
    have hr := h r (List.mem_cons_self r rs)
    have hrs : ∀ x ∈ rs, wellformed_row x := fun x hx => h x (List.mem_cons_of_mem _ hx)
    simp only [List.map_cons, List.mapM_cons, parse_row_record_line r hr.2.1, ih hrs]
    rfl

/-- C6: persisting any table whose rows are well formed (non-empty,
separator-free date strings — every ISO-8601 date qualifies — and integer
counts) and loading it back returns exactly the same table. -/
theorem save_load_roundtrip (df : Table) (h : ∀ r ∈ df, wellformed_row r) :
    load_data (some (save_data df)) = some df := by
  have hfilter_map : (df.map record_line).filter (fun l => !l.isEmpty) =
      df.map record_line := by
    rw [List.filter_eq_self]
    intro l hl
    rcases List.mem_map.mp hl with ⟨r, _, hrl⟩
    subst hrl
    simpa using record_line_ne_nil r
  have hne : (save_data df).isEmpty = false := by
    simp [save_data, csv_header]
  rw [load_data, hne]
  simp only [Bool.false_eq_true, if_false]
  unfold parse_csv save_data
  rw [split_on_char_append '\n' _ _ (by decide), split_body df h]
  simp only [List.filter_append, hfilter_map]
  rw [show List.filter (fun l : List Char => !l.isEmpty) [[]] = [] from rfl,
    List.append_nil]
  simp only [mapM_parse_record df h, if_true]

/-- Witness for C6 at a concrete two-row table. -/
theorem save_load_roundtrip_witness :
    load_data (some (save_data [⟨"2024-06-01", 5⟩, ⟨"2024-06-02", 12⟩])) =
      some [⟨"2024-06-01", 5⟩, ⟨"2024-06-02", 12⟩] :=
  save_load_roundtrip [⟨"2024-06-01", 5⟩, ⟨"2024-06-02", 12⟩] (by decide)

/-! ### C8 -/

/-- C8: loading with the data file missing, or present but empty, yields
the empty table rather than an error. -/
theorem load_data_empty_spec :
    load_data none = some [] ∧ load_data (some []) = some [] :=
  ⟨rfl, rfl⟩

/-! ### Calendar renderer

`render_monthly_calendar` builds `calendar.monthcalendar(year, month)` —
a Monday-first week matrix with `0` in the slots outside the month — and
emits one `<td>` per slot: an empty cell for `0`, a "filled" cell with a
checkmark for a day whose count reaches 10, and a normal day cell
otherwise.  The embedding abstracts the wall-clock read
(`datetime.date.today()`) into explicit `year`/`month` arguments and the
counts dictionary into a lookup function, and models each `<td>` as a
`Cell` instead of its HTML text. -/

/-- Embedding of `calendar.isleap`. -/
def is_leap (y : Nat) : Bool :=
  (y % 4 == 0 && y % 100 != 0) || y % 400 == 0

/-- Number of days in a month (`calendar.monthrange`). -/
def month_length (y m : Nat) : Nat :=
  if m = 2 then (if is_leap y then 29 else 28)
  else if m = 4 ∨ m = 6 ∨ m = 9 ∨ m = 11 then 30 else 31

/-- Days in all years before year `y` of the proleptic Gregorian
calendar. -/
def days_before_year (y : Nat) : Nat :=
  (y - 1) * 365 + (y - 1) / 4 - (y - 1) / 100 + (y - 1) / 400

/-- Days in the months of year `y` strictly before month `m`. -/
def days_before_month (y m : Nat) : Nat :=
  ((List.range (m - 1)).map (fun k => month_length y (k + 1))).sum

/-- Embedding of `datetime.date(y, m, d).toordinal()`: 0001-01-01 is day 1. -/
def to_ordinal (y m d : Nat) : Nat :=
  days_before_year y + days_before_month y m + d

/-- Embedding of `datetime.date(y, m, d).weekday()`: 0 = Monday … 6 = Sunday
(ordinal 1 was a Monday). -/
def weekday (y m d : Nat) : Nat :=
  (to_ordinal y m d + 6) % 7

/-- Complete the flat slot list to a whole number of weeks with trailing
zero slots, as `calendar.Calendar.itermonthdays` does. -/
def pad_to_week (core : List Nat) : List Nat :=
  core ++ List.replicate ((7 - core.length % 7) % 7) 0

/-- The flat slot list of the month: zero slots up to the weekday of the
1st (Monday-first), then the days `1..n`, then trailing zero slots. -/
def month_cells (y m : Nat) : List Nat :=
  pad_to_week (List.replicate (weekday y m 1) 0 ++
    (List.range (month_length y m)).map (fun k => k + 1))

/-- Regroup the flat slot list into weeks of seven
(`calendar.monthcalendar`s rows; the slot count is always a multiple of
seven). -/
def chunk_weeks : List Nat → List (List Nat)
  | [] => []
  | a :: b :: c :: d :: e :: f :: g :: rest => [a, b, c, d, e, f, g] :: chunk_weeks rest
  | l => [l]

/-- Embedding of `calendar.monthcalendar(y, m)` with the default Monday first day. -/
def monthcalendar (y m : Nat) : List (List Nat) :=
  chunk_weeks (month_cells y m)

/-- One `<td>` of the rendered calendar: an `empty-day` slot, a normal
`empty-cell` day, or a `filled-cell` day carrying the checkmark. -/
inductive Cell where
  | empty : Cell
  | pending (day : Nat) : Cell
  | met (day : Nat) : Cell
deriving DecidableEq, Repr

/-- Two-digit zero padding as used for the month and day fields. -/
def pad2 (n : Nat) : String := if n < 10 then "0" ++ toString n else toString n

/-- The `f"{year}-{month:02d}-{day:02d}"` lookup key. -/
def date_str (y m d : Nat) : String :=
  toString y ++ "-" ++ pad2 m ++ "-" ++ pad2 d

/-- Render one slot: `0` becomes the empty cell; a day gets the checkmark
exactly when `counts.get(date_str, 0) >= 10`. -/
def render_cell (y m : Nat) (counts : String → Option Int) (day : Nat) : Cell :=
  if day = 0 then Cell.empty
  else if 10 ≤ (counts (date_str y m day)).getD 0 then Cell.met day
  else Cell.pending day

/-- Embedding of `render_monthly_calendar`: the week-major cell grid of the generated
HTML table. -/
def render_monthly_calendar (y m : Nat) (counts : String → Option Int) :
    List (List Cell) :=
  (monthcalendar y m).map (fun week => week.map (render_cell y m counts))

/-- The counts dictionary `{row['date']: row['count']}` that
`render_monthly_calendar` builds from the table (last write wins). -/
def day_lookup (df : Table) : String → Option Int :=
  fun d => (df.reverse.find? (fun r => r.date == d)).map (fun r => r.count)

/-- Does this cell show a day of the month? -/
def cell_is_day : Cell → Bool
  | Cell.empty => false
  | _ => true

/-- Does this cell carry the goal-met checkmark? -/
def cell_is_met : Cell → Bool
  | Cell.met _ => true
  | _ => false

/-! ### Calendar lemmas -/

theorem chunk_weeks_flatten (l : List Nat) (h : l.length % 7 = 0) :
    (chunk_weeks l).flatten = l := by
  induction l using chunk_weeks.induct with
  | case1 => rfl
  | case2 a b c d e f g rest ih =>
    simp only [chunk_weeks, List.flatten_cons]
    rw [ih (by simp at h ⊢; omega)]
    rfl
  | case3 l h1 h2 =>
    exfalso
    rcases l with _ | ⟨a, _ | ⟨b, _ | ⟨c, _ | ⟨d, _ | ⟨e, _ | ⟨f, _ | ⟨g, rest⟩⟩⟩⟩⟩⟩⟩
    · exact h1 rfl
    · simp at h
    · simp at h
    · simp at h
    · simp at h
    · simp at h
    · simp at h
    · exact h2 a b c d e f g rest rfl

theorem chunk_weeks_lengths (l : List Nat) (h : l.length % 7 = 0) :
    ∀ w ∈ chunk_weeks l, w.length = 7 := by
  induction l using chunk_weeks.induct with
  | case1 => intro w hw; simp [chunk_weeks] at hw
  | case2 a b c d e f g rest ih =>
    intro w hw
    rw [chunk_weeks] at hw
    rcases List.mem_cons.mp hw with hw | hw
    · subst hw; rfl
    · exact ih (by simp at h ⊢; omega) w hw
  | case3 l h1 h2 =>
    exfalso
    rcases l with _ | ⟨a, _ | ⟨b, _ | ⟨c, _ | ⟨d, _ | ⟨e, _ | ⟨f, _ | ⟨g, rest⟩⟩⟩⟩⟩⟩⟩
    · exact h1 rfl
    · simp at h
    · simp at h
    · simp at h
    · simp at h
    · simp at h
    · simp at h
    · exact h2 a b c d e f g rest rfl

/-! ### C5 -/

/-- C5: the rendered month is a week-major grid of 7-cell rows whose
non-empty cells are, in order, exactly the days `1..month_length`,
preceded by one empty slot per weekday position before the 1st
(Monday-first) and followed by trailing empty slots; a day is `met` iff
its looked-up count is at least 10 (absent days count 0, hence
`pending`).  Concretely, June 2024 with an empty lookup yields 30 day
cells, none met; marking `2024-06-15` with 10 yields exactly one met
cell. -/
theorem render_monthly_calendar_spec (y m : Nat) (counts : String → Option Int) :
    (∀ w ∈ render_monthly_calendar y m counts, w.length = 7) ∧
    (∃ b, (render_monthly_calendar y m counts).flatten =
      List.replicate (weekday y m 1) Cell.empty ++
      (List.range (month_length y m)).map (fun k =>
        if 10 ≤ (counts (date_str y m (k + 1))).getD 0 then Cell.met (k + 1)
        else Cell.pending (k + 1)) ++
      List.replicate b Cell.empty) ∧
    (render_monthly_calendar 2024 6 (fun _ => none)).flatten.countP cell_is_day = 30 ∧
    (render_monthly_calendar 2024 6 (fun _ => none)).flatten.countP cell_is_met = 0 ∧
    (render_monthly_calendar 2024 6
      (fun s => if s = "2024-06-15" then some 10 else none)).flatten.countP cell_is_met
      = 1 := by
  have hmod : (month_cells y m).length % 7 = 0 := by
    unfold month_cells pad_to_week
    simp only [List.length_append, List.length_replicate, List.length_map, List.length_range]
    omega
  refine ⟨?_, ?_, by decide, by decide, by decide⟩
  · intro w hw
    rcases List.mem_map.mp hw with ⟨week, hweek, rfl⟩
    rw [List.length_map]
    exact chunk_weeks_lengths _ hmod week hweek
  · refine ⟨(7 - (weekday y m 1 + month_length y m) % 7) % 7, ?_⟩
    unfold render_monthly_calendar monthcalendar
    rw [← List.map_flatten, chunk_weeks_flatten _ hmod]
    unfold month_cells pad_to_week
    simp only [List.length_append, List.length_replicate, List.length_map, List.length_range,
      List.map_append, List.map_replicate, List.map_map]
    have h1 : ∀ a : Nat, List.replicate a (render_cell y m counts 0) =
        List.replicate a Cell.empty := by
      intro a
      simp [render_cell]
    have h2 : List.map (render_cell y m counts ∘ fun k => k + 1)
        (List.range (month_length y m)) =
        List.map (fun k =>
          if 10 ≤ (counts (date_str y m (k + 1))).getD 0 then Cell.met (k + 1)
          else Cell.pending (k + 1)) (List.range (month_length y m)) := by
      apply List.map_congr_left
      intro k hk
      simp [render_cell]
    rw [h1, h1, h2]

/-! ### C9 -/

/-- C9: `render_monthly_calendar` is deterministic in its inputs — equal
years, months and lookups give identical grids; nothing else influences
the result. -/
theorem render_monthly_calendar_deterministic (y₁ m₁ y₂ m₂ : Nat)
    (c₁ c₂ : String → Option Int) (hy : y₁ = y₂) (hm : m₁ = m₂) (hc : c₁ = c₂) :
    render_monthly_calendar y₁ m₁ c₁ = render_monthly_calendar y₂ m₂ c₂ := by
  subst hy
  subst hm
  subst hc
  rfl

/-- Witness for C9 at concrete inputs. -/
theorem render_monthly_calendar_deterministic_witness :
    render_monthly_calendar 2024 6 (fun _ => none) =
      render_monthly_calendar 2024 6 (fun _ => none) :=
  render_monthly_calendar_deterministic 2024 6 2024 6
    (fun _ => none) (fun _ => none) rfl rfl rfl

end StreakApp
